import Mathlib

/-!
Verification of the Access & Interchange core of the kampanyatakvim
application: the tabular (CSV) codec with its name/identifier reference
resolution, the IP access-table mutators, the announcement unread
tracker, and the user-creation form, shallowly embedded from the
AdminModal / AnnouncementModal source.

Embedding conventions:
* JavaScript strings are Lean `String`s; JS string maps (plain objects)
  are association lists in property order.
* A JS `Date` is embedded by its `yyyy-MM-dd` rendering: the export
  emits `format(ev.date, 'yyyy-MM-dd')` and the decoder applies the
  non-validating constructor `new Date(dateStr)` without inspecting the
  result, so the codec only ever moves the rendered string around.
* `Announcement.createdAt` is embedded by its local calendar day, which
  is the only part `isToday` inspects.
* Async collaborator calls (`onBulkAddEvents`, `onUpdateIpConfig`,
  `onAddUser`) are embedded by returning the value the handler passes to
  them inside `Except.ok`; `setError`-and-return paths are `Except.error`
  with the message, and in those paths no collaborator call is made.
-/

namespace KampanyaTakvim

/-- Whitespace class for the embedding of JS `String.prototype.trim`
(space, tab, line feed, carriage return, vertical tab, form feed). -/
def jsWhitespace (c : Char) : Bool :=
  c == ' ' || c == '\t' || c == '\n' || c == '\r' || c == '\x0b' || c == '\x0c'

/-- Char-level trim: drop leading and trailing whitespace. -/
def jsTrimL (cs : List Char) : List Char :=
  ((cs.dropWhile jsWhitespace).reverse.dropWhile jsWhitespace).reverse

/-- Embeds JS `s.trim()`. -/
def jsTrim (s : String) : String :=
  String.mk (jsTrimL s.data)

/-- Embeds JS `s.split(sep)` for a single-character separator:
`"a\nb".split('\n') = ["a","b"]`, `"".split('\n') = [""]`,
`"a\n".split('\n') = ["a",""]`. -/
def splitOnChar (sep : Char) : List Char → List (List Char)
  | [] => [[]]
  | c :: rest =>
    match splitOnChar sep rest with
    | [] => [[c]]
    | f :: fs => if c = sep then [] :: f :: fs else (c :: f) :: fs

/-- Department record from `../types` as used by the source:
`id` (Firestore document id) and display `name`. -/
structure Department where
  id : String
  name : String
  deriving DecidableEq

/-- User record from `../types` as used by the source. -/
structure User where
  id : String
  name : String
  email : String
  emoji : String
  avatarUrl : String
  deriving DecidableEq

/-- Event record from `../types` as used by the codec. The JS `date`
field is embedded by its `yyyy-MM-dd` rendering `dateStr` (see the
module comment); the opaque `id` plays no part in the codec. -/
structure CalendarEvent where
  title : String
  dateStr : String
  urgency : String
  description : Option String
  departmentId : Option String
  assigneeId : Option String
  deriving DecidableEq

/-- Embeds `s.replace(/"/g, '""')` at char level: every literal quote is
doubled. -/
def escapeQuotes : List Char → List Char
  | [] => []
  | c :: rest => (if c = '"' then ['"', '"'] else [c]) ++ escapeQuotes rest

/-- Embeds the template `"${s.replace(/"/g, '""')}"` used for the
title, description, department and assignee values on export. -/
def quoteField (s : String) : String :=
  String.mk ('"' :: (escapeQuotes s.data ++ ['"']))

/-- Embeds `departments.find(d => d.id === deptId)?.name || ''`.
A missing (`undefined`) identifier matches no department. -/
def resolveDeptName (departments : List Department) (deptId : Option String) : String :=
  match deptId with
  | none => ""
  | some i =>
    match departments.find? (fun d => d.id == i) with
    | none => ""
    | some d => d.name

/-- Embeds `users.find(u => u.id === assigneeId)?.name || ''`. -/
def resolveUserName (users : List User) (assigneeId : Option String) : String :=
  match assigneeId with
  | none => ""
  | some i =>
    match users.find? (fun u => u.id == i) with
    | none => ""
    | some u => u.name

/-- The fixed literal header line of the export. -/
def csvHeader : String := "Title,Date,Urgency,Description,Department,Assignee"

/-- The six field texts of one exported row, in emission order
(`safeTitle`, `dateStr`, `ev.urgency`, `safeDesc`, `safeDept`,
`safeUser` in the source). -/
def encodedFields (departments : List Department) (users : List User)
    (ev : CalendarEvent) : List String :=
  [quoteField ev.title,
   ev.dateStr,
   ev.urgency,
   quoteField (ev.description.getD ""),
   quoteField (resolveDeptName departments ev.departmentId),
   quoteField (resolveUserName users ev.assigneeId)]

/-- Embeds the row template
`` `${safeTitle},${dateStr},${ev.urgency},${safeDesc},${safeDept},${safeUser}` ``. -/
def encodeRow (departments : List Department) (users : List User)
    (ev : CalendarEvent) : String :=
  quoteField ev.title ++ "," ++ ev.dateStr ++ "," ++ ev.urgency ++ ","
    ++ quoteField (ev.description.getD "") ++ ","
    ++ quoteField (resolveDeptName departments ev.departmentId) ++ ","
    ++ quoteField (resolveUserName users ev.assigneeId)

/-- Embeds `handleExportCSV`: the header line then one line per event,
each terminated by a newline. -/
def handleExportCSV (departments : List Department) (users : List User)
    (events : List CalendarEvent) : String :=
  events.foldl (fun acc ev => acc ++ encodeRow departments users ev ++ "\n")
    (csvHeader ++ "\n")

/-- The quote-toggling scanner inside `parseCSVLine`: walk the line,
flip `inQuotes` on every quote, and close a field at every comma seen
outside quotes.  The accumulator holds the current field reversed. -/
def csvScan : List Char → Bool → List Char → List (List Char)
  | [], _, acc => [acc.reverse]
  | c :: rest, q, acc =>
    if c = '"' then csvScan rest (!q) (c :: acc)
    else if c = ',' ∧ q = false then acc.reverse :: csvScan rest false []
    else csvScan rest q (c :: acc)

/-- Embeds `.replace(/^"|"$/g, '')`: strip one leading quote. -/
def stripLeadQuote (cs : List Char) : List Char :=
  match cs with
  | [] => []
  | c :: rest => if c = '"' then rest else c :: rest

/-- Embeds `.replace(/^"|"$/g, '')`: strip one trailing quote. -/
def stripTrailQuote (cs : List Char) : List Char :=
  if cs.getLast? = some '"' then cs.dropLast else cs

/-- Embeds `.replace(/""/g, '"')`: collapse every doubled quote,
scanning left to right without overlap. -/
def collapseQuotes : List Char → List Char
  | [] => []
  | [c] => [c]
  | c :: d :: rest =>
    if c = '"' ∧ d = '"' then '"' :: collapseQuotes rest
    else c :: collapseQuotes (d :: rest)

/-- Per-field post-processing of the scanner output:
`field.replace(/^"|"$/g, '').replace(/""/g, '"')`. -/
def processField (cs : List Char) : String :=
  String.mk (collapseQuotes (stripTrailQuote (stripLeadQuote cs)))

/-- Embeds the `parseCSVLine` helper of `handleImportCSV`. -/
def parseCSVLine (line : String) : List String :=
  (csvScan line.data false []).map processField

/-- Modelled from the spec: `URGENCY_CONFIGS` lives in `../constants`,
which is not part of the sources.  The spec fixes a closed set of
urgency levels whose defined mid-level default is `Medium` (and the
source literally falls back to `'Medium'`), so the key set is taken to
be Low / Medium / High. -/
def urgencyLevels : List String := ["Low", "Medium", "High"]

/-- Embeds `URGENCY_CONFIGS[urgency] ? urgency : 'Medium'`. -/
def coerceUrgency (u : String) : String :=
  if urgencyLevels.contains u then u else "Medium"

/-- Embeds one iteration of the import loop: trim the line, skip it when
blank or when it yields fewer than three fields, otherwise build the
partial event record pushed onto `newEvents`.  `cols[3..5]` may be
`undefined` in JS, embedded as `Option`; a `find` against an
`undefined` name matches nothing. -/
def importRow (departments : List Department) (users : List User)
    (rawLine : String) : Option CalendarEvent :=
  let line := jsTrim rawLine
  if line = "" then none
  else
    let cols := parseCSVLine line
    if cols.length < 3 then none
    else some
      { title := cols.getD 0 ""
        dateStr := cols.getD 1 ""
        urgency := coerceUrgency (cols.getD 2 "")
        description := cols[3]?
        departmentId := cols[4]?.bind
          (fun n => (departments.find? (fun d => d.name == n)).map (fun d => d.id))
        assigneeId := cols[5]?.bind
          (fun n => (users.find? (fun u => u.name == n)).map (fun u => u.id)) }

/-- Embeds `handleImportCSV` up to the `onBulkAddEvents` call: an empty
or whitespace-only paste and a header-only paste are validation errors
(no collaborator call is made); otherwise the list handed to
`onBulkAddEvents` is returned. -/
def handleImportCSV (departments : List Department) (users : List User)
    (importText : String) : Except String (List CalendarEvent) :=
  if jsTrim importText = "" then Except.error "Lütfen CSV verisi giriniz."
  else
    let lines := (splitOnChar '\n' (jsTrim importText).data).map String.mk
    if lines.length < 2 then
      Except.error "CSV içeriği boş veya sadece başlıktan oluşuyor."
    else Except.ok ((lines.drop 1).filterMap (importRow departments users))

/-- The access-table persisted shape from `../types`: the elevated
(designer) address list and the address-to-department map, the latter an
association list in property order. -/
structure IpAccessConfig where
  designerIps : List String
  departmentIps : List (String × String)
  deriving DecidableEq

/-- Lookup `m[k]` on the embedded string map. -/
def mapLookup (m : List (String × String)) (k : String) : Option String :=
  (m.find? (fun p => p.1 == k)).map (fun p => p.2)

/-- Assignment `m[k] = v` on the embedded string map: update the
existing property in place, or append a new one. -/
def mapInsert : List (String × String) → String → String → List (String × String)
  | [], k, v => [(k, v)]
  | p :: rest, k, v =>
    if p.1 = k then (k, v) :: rest else p :: mapInsert rest k v

/-- Embeds `newMapIp.split(/[,\s]+/).filter(ip => ip.trim() !== '')`:
the maximal runs of non-separator characters, where a separator is a
comma or whitespace. -/
def isIpSep (c : Char) : Bool := c == ',' || jsWhitespace c

/-- Token accumulator for `splitIps`. -/
def ipTokens : List Char → List Char → List String
  | [], acc => if acc.isEmpty then [] else [String.mk acc.reverse]
  | c :: rest, acc =>
    if isIpSep c then
      (if acc.isEmpty then [] else [String.mk acc.reverse]) ++ ipTokens rest []
    else ipTokens rest (c :: acc)

/-- The address batch of `handleAddIpMapping`. -/
def splitIps (s : String) : List String := ipTokens s.data []

/-- Embeds `handleAddIpMapping`: reject a blank address text or missing
department choice, reject the whole batch when any address is already
mapped (JS truthiness of `ipConfig.departmentIps[ip]`), otherwise insert
every address of the batch pointing at the chosen department. -/
def handleAddIpMapping (newMapIp newMapDeptId : String)
    (ipConfig : IpAccessConfig) : Except String IpAccessConfig :=
  if jsTrim newMapIp = "" ∨ newMapDeptId = "" then
    Except.error "Lütfen IP adresi ve birim seçiniz."
  else
    let ipsToAdd := splitIps newMapIp
    let existingIps :=
      ipsToAdd.filter (fun ip => ((mapLookup ipConfig.departmentIps ip).getD "") != "")
    if existingIps.length > 0 then
      Except.error ("Şu IP\x27ler zaten tanımlı: " ++ String.intercalate ", " existingIps)
    else
      Except.ok { ipConfig with
        departmentIps :=
          ipsToAdd.foldl (fun m ip => mapInsert m ip newMapDeptId)
            ipConfig.departmentIps }

/-- A local calendar day, the only part of a timestamp `isToday`
compares. -/
structure LocalDay where
  year : Nat
  month : Nat
  day : Nat
  deriving DecidableEq

/-- Broadcast message from `../types` as used by the modal; `readBy` may
be absent (`undefined`), embedded as `Option`. -/
structure Announcement where
  id : String
  title : String
  content : String
  createdDay : LocalDay
  readBy : Option (List String)
  deriving DecidableEq

/-- Embeds the unread test of AnnouncementModal, combining the guard
`currentUserId && ...` (JS truthiness: `null` and `''` are falsy) with
`isToday(announcement.createdAt) && !(announcement.readBy || []).includes(currentUserId)`. -/
def announcementIsUnread (a : Announcement) (viewerId : Option String)
    (today : LocalDay) : Bool :=
  match viewerId with
  | none => false
  | some v =>
    if v = "" then false
    else decide (a.createdDay = today) && !((a.readBy.getD []).contains v)

/-- The argument tuple the user form passes to `onAddUser`. -/
structure NewUserInput where
  name : String
  email : String
  emoji : String
  avatarUrl : String
  deriving DecidableEq

/-- Embeds `handleAddSubmit` up to the `onAddUser` call.  `avatarUpload`
is the URL the storage collaborator returns for the selected photo file
(`none` when no file was chosen).  `emojiToSave = selectedEmoji || '👤'`. -/
def handleAddSubmit (newName newEmail selectedEmoji : String)
    (avatarUpload : Option String) : Except String NewUserInput :=
  if jsTrim newName = "" ∨ jsTrim newEmail = "" then
    Except.error "Lütfen isim ve e-posta alanlarını doldurunuz."
  else if selectedEmoji = "" ∧ avatarUpload = none then
    Except.error "Lütfen bir emoji seçiniz veya fotoğraf yükleyiniz."
  else
    let avatarUrl := avatarUpload.getD ""
    let emojiToSave := if selectedEmoji = "" then "👤" else selectedEmoji
    Except.ok
      { name := newName, email := newEmail, emoji := emojiToSave, avatarUrl := avatarUrl }

/-- The projection the round-trip law compares: title, date, urgency and
the resolved department/assignee display names. -/
def eventView (departments : List Department) (users : List User)
    (ev : CalendarEvent) : String × String × String × String × String :=
  (ev.title, ev.dateStr, ev.urgency,
   resolveDeptName departments ev.departmentId,
   resolveUserName users ev.assigneeId)

/-- The decoded views of an import, `none` when the import errors. -/
def importViews (departments : List Department) (users : List User)
    (text : String) : Option (List (String × String × String × String × String)) :=
  match handleImportCSV departments users text with
  | Except.error _ => none
  | Except.ok recs => some (recs.map (eventView departments users))

/-- The round-trip law of spec section 8 for a given record sequence:
decoding the encoded text succeeds and yields the same views. -/
def RoundTripViews (departments : List Department) (users : List User)
    (events : List CalendarEvent) : Prop :=
  importViews departments users (handleExportCSV departments users events)
    = some (events.map (eventView departments users))

instance {ε α : Type} [DecidableEq ε] [DecidableEq α] : DecidableEq (Except ε α) := fun a b =>
  match a, b with
  | Except.error e, Except.error f =>
    if h : e = f then isTrue (by rw [h])
    else isFalse (fun hc => h (Except.error.inj hc))
  | Except.error _, Except.ok _ => isFalse (fun hc => Except.noConfusion hc)
  | Except.ok _, Except.error _ => isFalse (fun hc => Except.noConfusion hc)
  | Except.ok x, Except.ok y =>
    if h : x = y then isTrue (by rw [h])
    else isFalse (fun hc => h (Except.ok.inj hc))

instance (departments : List Department) (users : List User)
    (events : List CalendarEvent) :
    Decidable (RoundTripViews departments users events) :=
  inferInstanceAs (Decidable
    (importViews departments users (handleExportCSV departments users events)
      = some (events.map (eventView departments users))))

/-- Field text is wrapped in double quotes with every inner literal
quote doubled (the quoting discipline of spec section 4.1). -/
def quotesDoubled : List Char → Bool
  | [] => true
  | '"' :: '"' :: rest => quotesDoubled rest
  | '"' :: _ => false
  | _ :: rest => quotesDoubled rest

/-- A field text that is wrapped in double quotes, its inner quotes all
doubled. -/
def wellQuoted (s : String) : Bool :=
  match s.data with
  | '"' :: rest =>
    match rest.getLast? with
    | some '"' => quotesDoubled rest.dropLast
    | _ => false
  | _ => false

/-- Claim C2 as stated: every emitted field value of a row is wrapped in
double quotes with inner quotes doubled. -/
def AllFieldsQuoted (departments : List Department) (users : List User)
    (ev : CalendarEvent) : Prop :=
  ∀ f ∈ encodedFields departments users ev, wellQuoted f = true

instance (departments : List Department) (users : List User) (ev : CalendarEvent) :
    Decidable (AllFieldsQuoted departments users ev) :=
  inferInstanceAs (Decidable (∀ f ∈ encodedFields departments users ev, wellQuoted f = true))

/-- Validity of an event record for the (amended) round-trip law: the
urgency is a known level, the date string has the export shape's
character set (no quote, comma or line break), and the title,
description and resolved names contain no line break. -/
def ValidEventForCodec (departments : List Department) (users : List User)
    (ev : CalendarEvent) : Prop :=
  ev.urgency ∈ urgencyLevels ∧
  (∀ c ∈ ev.dateStr.data, c ≠ '\n' ∧ c ≠ '"' ∧ c ≠ ',') ∧
  '\n' ∉ ev.title.data ∧
  '\n' ∉ (ev.description.getD "").data ∧
  '\n' ∉ (resolveDeptName departments ev.departmentId).data ∧
  '\n' ∉ (resolveUserName users ev.assigneeId).data

instance (departments : List Department) (users : List User) (ev : CalendarEvent) :
    Decidable (ValidEventForCodec departments users ev) :=
  inferInstanceAs (Decidable (_ ∧ _ ∧ _ ∧ _ ∧ _ ∧ _))

/-! ## Helper lemmas -/

theorem quotesDoubled_escapeQuotes (cs : List Char) :
    quotesDoubled (escapeQuotes cs) = true := by
  induction cs with
  | nil => rfl
  | cons c t ih =>
    by_cases hc : c = '"'
    · subst hc; simpa [escapeQuotes, quotesDoubled] using ih
    · simpa [escapeQuotes, hc, quotesDoubled] using ih

theorem wellQuoted_quoteField (s : String) : wellQuoted (quoteField s) = true := by
  have h1 : (escapeQuotes s.data ++ ['"']).getLast? = some '"' := by simp
  have h2 : (escapeQuotes s.data ++ ['"']).dropLast = escapeQuotes s.data := by simp
  simp [wellQuoted, quoteField, h1, h2, quotesDoubled_escapeQuotes]

theorem splitOnChar_not_mem (sep : Char) (cs : List Char) (h : sep ∉ cs) :
    splitOnChar sep cs = [cs] := by
  induction cs with
  | nil => rfl
  | cons c t ih =>
    have hc : c ≠ sep := fun hc => h (hc ▸ List.mem_cons_self c t)
    have ht : sep ∉ t := fun ht => h (List.mem_cons_of_mem c ht)
    simp [splitOnChar, ih ht, hc]

/-- The record `importRow` builds for an accepted line, named for reuse
in proofs. -/
def decodedRecord (departments : List Department) (users : List User)
    (line : String) : CalendarEvent :=
  { title := (parseCSVLine line).getD 0 ""
    dateStr := (parseCSVLine line).getD 1 ""
    urgency := coerceUrgency ((parseCSVLine line).getD 2 "")
    description := (parseCSVLine line)[3]?
    departmentId := (parseCSVLine line)[4]?.bind
      (fun n => (departments.find? (fun d => d.name == n)).map (fun d => d.id))
    assigneeId := (parseCSVLine line)[5]?.bind
      (fun n => (users.find? (fun u => u.name == n)).map (fun u => u.id)) }

theorem importRow_eq_some (departments : List Department) (users : List User)
    (rawLine : String)
    (hblank : jsTrim rawLine ≠ "")
    (hcols : 3 ≤ (parseCSVLine (jsTrim rawLine)).length) :
    importRow departments users rawLine
      = some (decodedRecord departments users (jsTrim rawLine)) := by
  simp [importRow, decodedRecord, hblank, Nat.not_lt.mpr hcols]

/-! ## C5: lines with fewer than three fields are silently skipped -/

/-- C5: a non-blank input line is omitted from the decoded sequence
exactly when it yields fewer than three fields; a line with three or
more fields always produces a record.  (Blank lines are also skipped, by
the separate blank-line rule.) -/
theorem c5_short_line_skip (departments : List Department) (users : List User)
    (rawLine : String) :
    importRow departments users rawLine = none
      ↔ (jsTrim rawLine = "" ∨ (parseCSVLine (jsTrim rawLine)).length < 3) := by
  by_cases h1 : jsTrim rawLine = "" <;>
    by_cases h2 : (parseCSVLine (jsTrim rawLine)).length < 3 <;>
      simp [importRow, h1, h2]

/-! ## C3: unparseable dates are passed through, not rejected -/

/-- C3: no line is ever rejected on account of its date field — whatever
the date text, parseable or not, the value reaches the decoded record
unchanged (the source wraps it in the non-validating `new Date`
constructor and defers all validation to the consumer).  In particular
this covers every unparseable date, ISO-shaped or otherwise. -/
theorem c3_date_passthrough (departments : List Department) (users : List User)
    (rawLine : String)
    (hblank : jsTrim rawLine ≠ "")
    (hcols : 3 ≤ (parseCSVLine (jsTrim rawLine)).length) :
    ∃ rec, importRow departments users rawLine = some rec
      ∧ rec.dateStr = (parseCSVLine (jsTrim rawLine)).getD 1 "" :=
  ⟨decodedRecord departments users (jsTrim rawLine),
   importRow_eq_some departments users rawLine hblank hcols, rfl⟩

/-- Witness for C3 at a concrete unparseable date. -/
theorem c3_date_passthrough_witness :
    ∃ rec, importRow [] [] "Başlık,tarih-yok,High" = some rec
      ∧ rec.dateStr = (parseCSVLine (jsTrim "Başlık,tarih-yok,High")).getD 1 "" :=
  c3_date_passthrough [] [] "Başlık,tarih-yok,High" (by decide) (by decide)

/-! ## C6: unknown urgency coerces to Medium -/

/-- C6: a row with three or more fields is decoded regardless of its
urgency value; an urgency outside the known set becomes `Medium`, a
known urgency is kept unchanged. -/
theorem c6_urgency_coercion (departments : List Department) (users : List User)
    (rawLine : String)
    (hblank : jsTrim rawLine ≠ "")
    (hcols : 3 ≤ (parseCSVLine (jsTrim rawLine)).length) :
    ∃ rec, importRow departments users rawLine = some rec
      ∧ (urgencyLevels.contains ((parseCSVLine (jsTrim rawLine)).getD 2 "") = false
          → rec.urgency = "Medium")
      ∧ (urgencyLevels.contains ((parseCSVLine (jsTrim rawLine)).getD 2 "") = true
          → rec.urgency = (parseCSVLine (jsTrim rawLine)).getD 2 "") := by
  refine ⟨decodedRecord departments users (jsTrim rawLine),
    importRow_eq_some departments users rawLine hblank hcols, ?_, ?_⟩
  · intro hunk
    replace hunk : (parseCSVLine (jsTrim rawLine)).getD 2 "" ∉ urgencyLevels := by
      simpa using hunk
    simp only [List.getD_eq_getElem?_getD] at hunk
    simp [decodedRecord, coerceUrgency, hunk]
  · intro hk
    replace hk : (parseCSVLine (jsTrim rawLine)).getD 2 "" ∈ urgencyLevels := by
      simpa using hk
    simp only [List.getD_eq_getElem?_getD] at hk
    simp [decodedRecord, coerceUrgency, hk]

/-- Witness for C6 at the spec's example row with urgency `Unknown`. -/
theorem c6_urgency_coercion_witness :
    ∃ rec, importRow [] [] "Başlık,2024-01-01,Unknown" = some rec
      ∧ (urgencyLevels.contains ((parseCSVLine (jsTrim "Başlık,2024-01-01,Unknown")).getD 2 "") = false
          → rec.urgency = "Medium")
      ∧ (urgencyLevels.contains ((parseCSVLine (jsTrim "Başlık,2024-01-01,Unknown")).getD 2 "") = true
          → rec.urgency = (parseCSVLine (jsTrim "Başlık,2024-01-01,Unknown")).getD 2 "") :=
  c6_urgency_coercion [] [] "Başlık,2024-01-01,Unknown" (by decide) (by decide)

/-! ## C9: empty or header-only import input errors without mutation -/

/-- C9: an import whose text is empty or whitespace-only, or consists of
a single (header) line, surfaces a validation error; the collaborator
`onBulkAddEvents` is never reached, so no events are created. -/
theorem c9_empty_or_header_only (departments : List Department) (users : List User)
    (importText : String)
    (h : jsTrim importText = "" ∨ '\n' ∉ (jsTrim importText).data) :
    ∃ msg, handleImportCSV departments users importText = Except.error msg := by
  rcases h with h | h
  · exact ⟨"Lütfen CSV verisi giriniz.", by simp [handleImportCSV, h]⟩
  · by_cases h0 : jsTrim importText = ""
    · exact ⟨"Lütfen CSV verisi giriniz.", by simp [handleImportCSV, h0]⟩
    · exact ⟨"CSV içeriği boş veya sadece başlıktan oluşuyor.",
        by simp [handleImportCSV, h0, splitOnChar_not_mem _ _ h]⟩

/-- Witness for C9 on a header-only paste. -/
theorem c9_empty_or_header_only_witness :
    ∃ msg, handleImportCSV [] [] "Title,Date,Urgency,Description,Department,Assignee"
      = Except.error msg :=
  c9_empty_or_header_only [] [] "Title,Date,Urgency,Description,Department,Assignee"
    (Or.inr (by decide))

/-! ## C2: which fields the encoder quotes -/

/-- C2 as stated is false: in the emitted row the date field (and the
urgency field) is not wrapped in double quotes. -/
theorem c2_counterexample :
    ¬ AllFieldsQuoted [] []
      { title := "Kampanya", dateStr := "2024-01-02", urgency := "High",
        description := none, departmentId := none, assigneeId := none } := by
  decide

/-- C2 amended: the title, description, department and assignee values
are wrapped in double quotes with every inner literal quote doubled,
while the date and urgency fields are emitted verbatim, unquoted. -/
theorem c2_amended_quoting (departments : List Department) (users : List User)
    (ev : CalendarEvent) :
    wellQuoted ((encodedFields departments users ev).getD 0 "") = true
      ∧ (encodedFields departments users ev).getD 1 "" = ev.dateStr
      ∧ (encodedFields departments users ev).getD 2 "" = ev.urgency
      ∧ wellQuoted ((encodedFields departments users ev).getD 3 "") = true
      ∧ wellQuoted ((encodedFields departments users ev).getD 4 "") = true
      ∧ wellQuoted ((encodedFields departments users ev).getD 5 "") = true := by
  refine ⟨?_, rfl, rfl, ?_, ?_, ?_⟩ <;>
    simp [encodedFields, wellQuoted_quoteField]

/-! ## C7: the unread test -/

/-- C7: `isUnread` is false for an absent viewer; for a present
(non-empty) viewer identifier it is true exactly when the message was
created on the current local calendar day and the viewer has not
acknowledged it; and a message from another calendar day is never
unread, whatever the acknowledgment state. -/
theorem c7_unread_rule (a : Announcement) (viewerId : Option String) (today : LocalDay) :
    (announcementIsUnread a none today = false)
      ∧ (∀ v : String, viewerId = some v → v ≠ "" →
          (announcementIsUnread a viewerId today = true
            ↔ (a.createdDay = today ∧ v ∉ a.readBy.getD [])))
      ∧ (a.createdDay ≠ today → announcementIsUnread a viewerId today = false) := by
  refine ⟨rfl, ?_, ?_⟩
  · rintro v rfl hv
    simp [announcementIsUnread, hv]
  · intro hne
    cases viewerId with
    | none => rfl
    | some v =>
      by_cases hv : v = "" <;> simp [announcementIsUnread, hv, hne]

/-- Witness for C7: an unacknowledged same-day message is unread for a
signed-in viewer. -/
theorem c7_unread_rule_witness :
    announcementIsUnread
      { id := "a1", title := "Duyuru", content := "Metin",
        createdDay := { year := 2026, month := 10, day := 12 },
        readBy := some ["u2"] }
      (some "u1") { year := 2026, month := 10, day := 12 } = true :=
  ((c7_unread_rule
      { id := "a1", title := "Duyuru", content := "Metin",
        createdDay := { year := 2026, month := 10, day := 12 },
        readBy := some ["u2"] }
      (some "u1") { year := 2026, month := 10, day := 12 }).2.1 "u1" rfl
    (by decide)).mpr ⟨rfl, by decide⟩

/-! ## C8: encoded department/assignee fields carry resolved names -/

/-- C8: the fifth and sixth emitted field values are the quoted resolved
display names; an absent reference resolves to the empty string, a
dangling reference (no entity with the identifier) resolves to the empty
string, and a found reference resolves to the (first) matching entity's
current name. -/
theorem c8_name_resolution (departments : List Department) (users : List User)
    (ev : CalendarEvent) :
    ((encodedFields departments users ev).getD 4 ""
        = quoteField (resolveDeptName departments ev.departmentId))
      ∧ ((encodedFields departments users ev).getD 5 ""
        = quoteField (resolveUserName users ev.assigneeId))
      ∧ (ev.departmentId = none → resolveDeptName departments ev.departmentId = "")
      ∧ (∀ i, ev.departmentId = some i →
          departments.find? (fun d => d.id == i) = none →
          resolveDeptName departments ev.departmentId = "")
      ∧ (∀ i d, ev.departmentId = some i →
          departments.find? (fun dd => dd.id == i) = some d →
          resolveDeptName departments ev.departmentId = d.name)
      ∧ (ev.assigneeId = none → resolveUserName users ev.assigneeId = "")
      ∧ (∀ i, ev.assigneeId = some i →
          users.find? (fun uu => uu.id == i) = none →
          resolveUserName users ev.assigneeId = "")
      ∧ (∀ i usr, ev.assigneeId = some i →
          users.find? (fun uu => uu.id == i) = some usr →
          resolveUserName users ev.assigneeId = usr.name) := by
  refine ⟨rfl, rfl, ?_, ?_, ?_, ?_, ?_, ?_⟩
  · intro h; rw [h]; rfl
  · intro i h hf; rw [h]; simp [resolveDeptName, hf]
  · intro i d h hf; rw [h]; simp [resolveDeptName, hf]
  · intro h; rw [h]; rfl
  · intro i h hf; rw [h]; simp [resolveUserName, hf]
  · intro i usr h hf; rw [h]; simp [resolveUserName, hf]

/-- Witness for C8: a dangling department reference encodes as the empty
name, a live assignee reference encodes as the user's current name. -/
theorem c8_name_resolution_witness :
    resolveDeptName [{ id := "d1", name := "Pazarlama" }] (some "d9") = ""
      ∧ resolveUserName [{ id := "u1", name := "Ali Veli", email := "a@b.c",
                           emoji := "🙂", avatarUrl := "" }] (some "u1") = "Ali Veli" := by
  have h := c8_name_resolution [{ id := "d1", name := "Pazarlama" }]
    [{ id := "u1", name := "Ali Veli", email := "a@b.c", emoji := "🙂", avatarUrl := "" }]
    { title := "T", dateStr := "2024-01-01", urgency := "High",
      description := none, departmentId := some "d9", assigneeId := some "u1" }
  exact ⟨h.2.2.2.1 "d9" rfl (by decide),
    h.2.2.2.2.2.2.2 "u1" { id := "u1", name := "Ali Veli", email := "a@b.c",
                           emoji := "🙂", avatarUrl := "" } rfl (by decide)⟩

/-! ## C10: created users always carry a glyph -/

/-- C10: any user record the form hands to `onAddUser` has a non-empty
glyph: the selected emoji when one was chosen, the fallback `👤`
otherwise; and an uploaded photo's URL is stored alongside it. -/
theorem c10_glyph_fallback (newName newEmail selectedEmoji : String)
    (avatarUpload : Option String) (u : NewUserInput)
    (h : handleAddSubmit newName newEmail selectedEmoji avatarUpload = Except.ok u) :
    u.emoji ≠ ""
      ∧ (selectedEmoji = "" → u.emoji = "👤")
      ∧ (selectedEmoji ≠ "" → u.emoji = selectedEmoji)
      ∧ (∀ url, avatarUpload = some url → u.avatarUrl = url) := by
  unfold handleAddSubmit at h
  by_cases h1 : jsTrim newName = "" ∨ jsTrim newEmail = ""
  · simp [h1] at h
  · by_cases h2 : selectedEmoji = "" ∧ avatarUpload = none
    · simp [h1, h2] at h
    · simp only [if_neg h1, if_neg h2, Except.ok.injEq] at h
      subst h
      refine ⟨?_, ?_, ?_, ?_⟩
      · by_cases he : selectedEmoji = "" <;> simp [he]
      · intro he; simp [he]
      · intro he; simp [he]
      · intro url hurl; subst hurl; rfl

/-- Witness for C10: a photo upload with no emoji selection stores the
fallback glyph next to the uploaded URL. -/
theorem c10_glyph_fallback_witness :
    ({ name := "Ali", email := "a@b.c", emoji := "👤", avatarUrl := "u.png" } :
        NewUserInput).emoji ≠ ""
      ∧ ("" = "" →
          ({ name := "Ali", email := "a@b.c", emoji := "👤", avatarUrl := "u.png" } :
            NewUserInput).emoji = "👤")
      ∧ ("" ≠ "" →
          ({ name := "Ali", email := "a@b.c", emoji := "👤", avatarUrl := "u.png" } :
            NewUserInput).emoji = "")
      ∧ (∀ url, (some "u.png" : Option String) = some url →
          ({ name := "Ali", email := "a@b.c", emoji := "👤", avatarUrl := "u.png" } :
            NewUserInput).avatarUrl = url) :=
  c10_glyph_fallback "Ali" "a@b.c" "" (some "u.png")
    { name := "Ali", email := "a@b.c", emoji := "👤", avatarUrl := "u.png" } (by decide)

/-! ## C4: department-mapping batches are atomic -/

theorem mapLookup_cons (p : String × String) (l : List (String × String)) (k : String) :
    mapLookup (p :: l) k = if p.1 == k then some p.2 else mapLookup l k := by
  by_cases hb : (p.1 == k) = true
  · simp [mapLookup, List.find?, hb]
  · simp only [Bool.not_eq_true] at hb
    simp [mapLookup, List.find?, hb]

theorem mapLookup_mapInsert_self (m : List (String × String)) (k v : String) :
    mapLookup (mapInsert m k v) k = some v := by
  induction m with
  | nil => simp [mapInsert, mapLookup]
  | cons p rest ih =>
    by_cases hp : p.1 = k
    · simp [mapInsert, hp, mapLookup_cons]
    · simp only [mapInsert, if_neg hp]
      rw [mapLookup_cons, if_neg (by simp [hp]), ih]

theorem mapLookup_mapInsert_ne (m : List (String × String)) (k v k' : String)
    (h : k' ≠ k) :
    mapLookup (mapInsert m k v) k' = mapLookup m k' := by
  have hkk : (k == k') = false := by simp [Ne.symm h]
  induction m with
  | nil => simp [mapInsert, mapLookup, hkk]
  | cons p rest ih =>
    by_cases hp : p.1 = k
    · simp only [mapInsert, if_pos hp]
      rw [mapLookup_cons, mapLookup_cons, hp]
      simp [hkk]
    · simp only [mapInsert, if_neg hp]
      rw [mapLookup_cons, mapLookup_cons, ih]

theorem mapLookup_foldl_insert_not_mem (l : List String) (v : String)
    (m : List (String × String)) (k : String) (h : k ∉ l) :
    mapLookup (l.foldl (fun acc i => mapInsert acc i v) m) k = mapLookup m k := by
  induction l generalizing m with
  | nil => rfl
  | cons a t ih =>
    have ha : k ≠ a := fun hk => h (hk ▸ List.mem_cons_self a t)
    have ht : k ∉ t := fun hk => h (List.mem_cons_of_mem a hk)
    rw [List.foldl_cons, ih _ ht, mapLookup_mapInsert_ne _ _ _ _ ha]

theorem mapLookup_foldl_insert_mem (l : List String) (v : String)
    (m : List (String × String)) (k : String) (h : k ∈ l) :
    mapLookup (l.foldl (fun acc i => mapInsert acc i v) m) k = some v := by
  induction l generalizing m with
  | nil => cases h
  | cons a t ih =>
    rw [List.foldl_cons]
    by_cases hk : k ∈ t
    · exact ih _ hk
    · have hka : k = a := by
        rcases List.mem_cons.mp h with h1 | h2
        · exact h1
        · exact absurd h2 hk
      subst hka
      rw [mapLookup_foldl_insert_not_mem t v _ k hk, mapLookup_mapInsert_self]

theorem mapLookup_value_mem (m : List (String × String)) (k v : String)
    (h : mapLookup m k = some v) : ∃ p ∈ m, p.2 = v := by
  unfold mapLookup at h
  cases hf : m.find? (fun p => p.1 == k) with
  | none => rw [hf] at h; cases h
  | some p =>
    rw [hf] at h
    exact ⟨p, List.mem_of_find?_eq_some hf, by simpa using h⟩

/-- C4: with a well-formed map (department identifiers are non-empty),
a batch containing an already-mapped address is rejected whole — the
handler returns an error and never calls `onUpdateIpConfig`, so the map
is left entirely unchanged — and a batch of wholly unmapped addresses is
inserted completely: every address of the batch maps to the chosen
department afterwards, all other addresses are untouched, and the
elevated list is untouched. -/
theorem c4_batch_atomicity (newMapIp newMapDeptId : String) (cfg : IpAccessConfig)
    (hwf : ∀ p ∈ cfg.departmentIps, p.2 ≠ "")
    (hip : jsTrim newMapIp ≠ "") (hdept : newMapDeptId ≠ "") :
    ((∃ ip ∈ splitIps newMapIp, (mapLookup cfg.departmentIps ip).isSome = true) →
        ∃ msg, handleAddIpMapping newMapIp newMapDeptId cfg = Except.error msg)
      ∧ ((∀ ip ∈ splitIps newMapIp, mapLookup cfg.departmentIps ip = none) →
          ∃ cfg2, handleAddIpMapping newMapIp newMapDeptId cfg = Except.ok cfg2
            ∧ cfg2.designerIps = cfg.designerIps
            ∧ (∀ ip ∈ splitIps newMapIp,
                mapLookup cfg2.departmentIps ip = some newMapDeptId)
            ∧ (∀ k, k ∉ splitIps newMapIp →
                mapLookup cfg2.departmentIps k = mapLookup cfg.departmentIps k)) := by
  have hguard : ¬ (jsTrim newMapIp = "" ∨ newMapDeptId = "") := by
    rintro (h | h)
    · exact hip h
    · exact hdept h
  constructor
  · rintro ⟨ip, hmem, hsome⟩
    rcases Option.isSome_iff_exists.mp hsome with ⟨w, hw⟩
    rcases mapLookup_value_mem _ _ _ hw with ⟨p, hpmem, hpv⟩
    have hwne : w ≠ "" := hpv ▸ hwf p hpmem
    have hpred : (((mapLookup cfg.departmentIps ip).getD "") != "") = true := by
      rw [hw]; simpa using hwne
    have hfilter : ip ∈ (splitIps newMapIp).filter
        (fun ip => ((mapLookup cfg.departmentIps ip).getD "") != "") :=
      List.mem_filter.mpr ⟨hmem, hpred⟩
    have hlen : 0 < ((splitIps newMapIp).filter
        (fun ip => ((mapLookup cfg.departmentIps ip).getD "") != "")).length :=
      List.length_pos.mpr (List.ne_nil_of_mem hfilter)
    exact ⟨"Şu IP\x27ler zaten tanımlı: " ++ String.intercalate ", "
        ((splitIps newMapIp).filter
          (fun ip => ((mapLookup cfg.departmentIps ip).getD "") != "")),
      by simp [handleAddIpMapping, hguard, hlen]⟩
  · intro hall
    have hfilter : (splitIps newMapIp).filter
        (fun ip => ((mapLookup cfg.departmentIps ip).getD "") != "") = [] := by
      rw [List.filter_eq_nil_iff]
      intro ip hmem
      rw [hall ip hmem]
      simp
    refine ⟨{ cfg with
              departmentIps := (splitIps newMapIp).foldl
                (fun m ip => mapInsert m ip newMapDeptId) cfg.departmentIps },
      ?_, rfl, ?_, ?_⟩
    · simp [handleAddIpMapping, hguard, hfilter]
    · intro ip hmem
      exact mapLookup_foldl_insert_mem _ _ _ _ hmem
    · intro k hk
      exact mapLookup_foldl_insert_not_mem _ _ _ _ hk

/-- Witness for C4 at the spec's atomicity example: the batch
`10.0.0.1, 10.0.0.2` is rejected whole when `10.0.0.1` is already
mapped. -/
theorem c4_batch_atomicity_witness :
    ∃ msg, handleAddIpMapping "10.0.0.1, 10.0.0.2" "d2"
      { designerIps := [], departmentIps := [("10.0.0.1", "d1")] }
      = Except.error msg :=
  (c4_batch_atomicity "10.0.0.1, 10.0.0.2" "d2"
      { designerIps := [], departmentIps := [("10.0.0.1", "d1")] }
      (by decide) (by decide) (by decide)).1 (by decide)

/-! ## C1: the round-trip law -/

/-- C1 as stated is false: a valid record whose title contains a line
break is lost, because the decoder splits the pasted text on line breaks
before its quote-aware scanner runs.  (The empty sequence also fails:
its export decodes to a header-only validation error.) -/
theorem c1_counterexample :
    ¬ RoundTripViews [] []
      [{ title := "Kampanya\nEk", dateStr := "2024-01-02", urgency := "High",
         description := none, departmentId := none, assigneeId := none }] := by
  decide

/-- The character list of an exported quoted field. -/
theorem quoteField_data (s : String) :
    (quoteField s).data = '"' :: (escapeQuotes s.data ++ ['"']) := rfl

/-- Comma-joining of field texts, the shape of one exported row. -/
def joinComma : List (List Char) → List Char
  | [] => []
  | [f] => f
  | f :: fs => f ++ ',' :: joinComma fs

/-- Newline-joining of row texts, the shape of the trimmed export body. -/
def joinLines : List (List Char) → List Char
  | [] => []
  | [r] => r
  | r :: rs => r ++ '\n' :: joinLines rs

theorem encodeRow_data (departments : List Department) (users : List User)
    (ev : CalendarEvent) :
    (encodeRow departments users ev).data
      = joinComma ((encodedFields departments users ev).map String.data) := by
  simp [encodeRow, encodedFields, joinComma, String.data_append]

/-- A field text that the scanner walks through without closing a field,
returning to the outside-quotes state. -/
def ScanField (f : List Char) : Prop :=
  ∀ rest acc, csvScan (f ++ rest) false acc = csvScan rest false (f.reverse ++ acc)

theorem csvScan_no_boundary (s rest acc : List Char)
    (h : ∀ c ∈ s, c ≠ '"' ∧ c ≠ ',') :
    csvScan (s ++ rest) false acc = csvScan rest false (s.reverse ++ acc) := by
  induction s generalizing acc with
  | nil => simp
  | cons c t ih =>
    have hc := h c (List.mem_cons_self c t)
    have ht : ∀ c ∈ t, c ≠ '"' ∧ c ≠ ',' := fun x hx => h x (List.mem_cons_of_mem c hx)
    rw [List.cons_append, csvScan, if_neg hc.1, if_neg (by simp [hc.2]), ih _ ht]
    simp

theorem csvScan_escape (s rest acc : List Char) :
    csvScan (escapeQuotes s ++ rest) true acc
      = csvScan rest true ((escapeQuotes s).reverse ++ acc) := by
  induction s generalizing acc with
  | nil => simp [escapeQuotes]
  | cons c t ih =>
    by_cases hc : c = '"'
    · subst hc
      rw [escapeQuotes, if_pos rfl]
      show csvScan ('"' :: '"' :: (escapeQuotes t ++ rest)) true acc = _
      rw [csvScan, if_pos rfl, csvScan, if_pos rfl]
      simp only [Bool.not_true, Bool.not_false]
      rw [ih]
      simp
    · rw [escapeQuotes, if_neg hc]
      show csvScan (c :: (escapeQuotes t ++ rest)) true acc = _
      rw [csvScan, if_neg hc, if_neg (by simp), ih]
      simp

theorem scanField_plain (s : List Char) (h : ∀ c ∈ s, c ≠ '"' ∧ c ≠ ',') :
    ScanField s :=
  fun rest acc => csvScan_no_boundary s rest acc h

theorem scanField_quoted (s : String) : ScanField (quoteField s).data := by
  intro rest acc
  rw [quoteField_data]
  show csvScan ('"' :: ((escapeQuotes s.data ++ ['"']) ++ rest)) false acc = _
  rw [csvScan, if_pos rfl]
  simp only [Bool.not_false, List.append_assoc, List.singleton_append]
  rw [csvScan_escape]
  rw [csvScan, if_pos rfl]
  simp only [Bool.not_true]
  simp [List.reverse_append]

theorem csvScan_joinComma (fields : List (List Char))
    (h : ∀ f ∈ fields, ScanField f) (hne : fields ≠ []) :
    csvScan (joinComma fields) false [] = fields := by
  induction fields with
  | nil => exact absurd rfl hne
  | cons f fs ih =>
    cases fs with
    | nil =>
      have hf := h f (List.mem_cons_self f [])
      have : csvScan (f ++ []) false [] = csvScan [] false (f.reverse ++ []) := hf [] []
      simpa [csvScan] using this
    | cons g gs =>
      have hf := h f (List.mem_cons_self f (g :: gs))
      show csvScan (f ++ ',' :: joinComma (g :: gs)) false [] = f :: g :: gs
      rw [hf (',' :: joinComma (g :: gs)) []]
      rw [csvScan, if_neg (by decide), if_pos (by simp)]
      rw [ih (fun x hx => h x (List.mem_cons_of_mem f hx)) (by simp)]
      simp

theorem collapseQuotes_cons_ne (c : Char) (l : List Char) (h : c ≠ '"') :
    collapseQuotes (c :: l) = c :: collapseQuotes l := by
  cases l with
  | nil => rfl
  | cons d r => rw [collapseQuotes, if_neg (by simp [h])]

theorem collapseQuotes_escapeQuotes (s : List Char) :
    collapseQuotes (escapeQuotes s) = s := by
  induction s with
  | nil => rfl
  | cons c t ih =>
    by_cases hc : c = '"'
    · subst hc
      rw [escapeQuotes, if_pos rfl]
      show collapseQuotes ('"' :: '"' :: escapeQuotes t) = _
      rw [collapseQuotes, if_pos ⟨rfl, rfl⟩, ih]
    · rw [escapeQuotes, if_neg hc]
      show collapseQuotes (c :: escapeQuotes t) = _
      rw [collapseQuotes_cons_ne c _ hc, ih]

theorem collapseQuotes_no_quote (s : List Char) (h : '"' ∉ s) :
    collapseQuotes s = s := by
  induction s with
  | nil => rfl
  | cons c t ih =>
    have hc : c ≠ '"' := fun hc => h (hc ▸ List.mem_cons_self c t)
    rw [collapseQuotes_cons_ne c t hc, ih (fun hm => h (List.mem_cons_of_mem c hm))]

theorem processField_quoted (s : String) :
    processField (quoteField s).data = s := by
  rw [quoteField_data, processField, stripLeadQuote, if_pos rfl, stripTrailQuote]
  rw [if_pos (by simp), List.dropLast_concat, collapseQuotes_escapeQuotes]

theorem processField_no_quote (cs : List Char) (h : '"' ∉ cs) :
    processField cs = String.mk cs := by
  cases cs with
  | nil => rfl
  | cons c t =>
    have hc : c ≠ '"' := fun hc => h (hc ▸ List.mem_cons_self c t)
    rw [processField, stripLeadQuote, if_neg hc, stripTrailQuote]
    rw [if_neg ?hlast, collapseQuotes_no_quote _ h]
    case hlast =>
      intro hl
      cases hg : (c :: t).getLast? with
      | none => rw [hg] at hl; cases hl
      | some a =>
        rw [hg] at hl
        have ha : a ∈ c :: t := List.mem_of_getLast?_eq_some hg
        rw [Option.some.injEq] at hl
        exact h (hl ▸ ha)

theorem mem_escapeQuotes (c : Char) (s : List Char) (h : c ∈ escapeQuotes s) :
    c ∈ s ∨ c = '"' := by
  induction s with
  | nil => cases h
  | cons d t ih =>
    rw [escapeQuotes] at h
    rcases List.mem_append.mp h with h1 | h2
    · by_cases hd : d = '"'
      · rw [if_pos hd] at h1
        simp only [List.mem_cons, List.not_mem_nil, or_false] at h1
        rcases h1 with h1 | h1 <;> exact Or.inr h1
      · rw [if_neg hd] at h1
        simp only [List.mem_singleton] at h1
        exact Or.inl (h1 ▸ List.mem_cons_self d t)
    · rcases ih h2 with h3 | h3
      · exact Or.inl (List.mem_cons_of_mem d h3)
      · exact Or.inr h3

theorem quoteField_no_newline (s : String) (h : '\n' ∉ s.data) :
    '\n' ∉ (quoteField s).data := by
  rw [quoteField_data]
  intro hm
  simp only [List.mem_cons, List.mem_append, List.mem_singleton] at hm
  rcases hm with hm | hm | hm
  · exact absurd hm (by decide)
  · rcases mem_escapeQuotes _ _ hm with h2 | h2
    · exact h h2
    · exact absurd h2 (by decide)
  · exact absurd hm (by decide)

theorem joinComma_not_mem (x : Char) (fs : List (List Char)) (hx : x ≠ ',')
    (h : ∀ f ∈ fs, x ∉ f) : x ∉ joinComma fs := by
  induction fs with
  | nil => simp [joinComma]
  | cons f gs ih =>
    cases gs with
    | nil => exact h f (List.mem_cons_self f [])
    | cons g gs2 =>
      show x ∉ f ++ ',' :: joinComma (g :: gs2)
      intro hm
      rcases List.mem_append.mp hm with h1 | h1
      · exact h f (List.mem_cons_self f (g :: gs2)) h1
      · rcases List.mem_cons.mp h1 with h1 | h1
        · exact hx h1
        · exact ih (fun r hr => h r (List.mem_cons_of_mem f hr)) h1

theorem urgency_chars (s : String) (h : s ∈ urgencyLevels) :
    ∀ c ∈ s.data, c ≠ '\n' ∧ c ≠ '"' ∧ c ≠ ',' := by
  rcases (by simpa [urgencyLevels] using h : s = "Low" ∨ s = "Medium" ∨ s = "High")
    with rfl | rfl | rfl <;> decide

theorem encodeRow_no_newline (departments : List Department) (users : List User)
    (ev : CalendarEvent) (hv : ValidEventForCodec departments users ev) :
    '\n' ∉ (encodeRow departments users ev).data := by
  obtain ⟨hurg, hdate, htitle, hdesc, hdept, husr⟩ := hv
  rw [encodeRow_data]
  refine joinComma_not_mem _ _ (by decide) ?_
  simp only [encodedFields, List.map_cons, List.map_nil]
  intro f hf
  simp only [List.mem_cons, List.not_mem_nil, or_false] at hf
  rcases hf with rfl | rfl | rfl | rfl | rfl | rfl
  · exact quoteField_no_newline _ htitle
  · intro hm; exact ((hdate _ hm).1 rfl)
  · intro hm; exact ((urgency_chars _ hurg _ hm).1 rfl)
  · exact quoteField_no_newline _ hdesc
  · exact quoteField_no_newline _ hdept
  · exact quoteField_no_newline _ husr

theorem encodeRow_head? (departments : List Department) (users : List User)
    (ev : CalendarEvent) :
    (encodeRow departments users ev).data.head? = some '"' := by
  rw [encodeRow_data]
  simp [joinComma, quoteField_data]

/-- Every encoded row ends with a closing double quote. -/
theorem encodeRow_concat (departments : List Department) (users : List User)
    (ev : CalendarEvent) :
    ∃ y, (encodeRow departments users ev).data = y ++ ['"'] := by
  refine ⟨(quoteField ev.title).data ++ [','] ++ ev.dateStr.data ++ [',']
      ++ ev.urgency.data ++ [','] ++ (quoteField (ev.description.getD "")).data
      ++ [','] ++ (quoteField (resolveDeptName departments ev.departmentId)).data
      ++ [','] ++ ('"' :: escapeQuotes (resolveUserName users ev.assigneeId).data), ?_⟩
  rw [encodeRow_data]
  simp only [encodedFields, List.map_cons, List.map_nil, joinComma, quoteField_data]
  simp [List.append_assoc]

theorem dropWhile_head_false (p : Char → Bool) (l : List Char) (c : Char)
    (h : l.head? = some c) (hc : p c = false) : l.dropWhile p = l := by
  cases l with
  | nil => cases h
  | cons d t =>
    rw [List.head?_cons, Option.some.injEq] at h
    subst h
    simp [List.dropWhile_cons, hc]

theorem head?_append_of_some (l t : List Char) (a : Char) (h : l.head? = some a) :
    (l ++ t).head? = some a := by
  cases l with
  | nil => cases h
  | cons c r => simpa using h

/-- JS trim is the identity on text that starts with a non-whitespace
character and ends with a closing double quote. -/
theorem jsTrimL_id_concat (y : List Char) (c1 : Char)
    (h1 : (y ++ ['"']).head? = some c1) (hw1 : jsWhitespace c1 = false) :
    jsTrimL (y ++ ['"']) = y ++ ['"'] := by
  unfold jsTrimL
  rw [dropWhile_head_false _ _ _ h1 hw1]
  rw [show (y ++ ['"']).reverse = '"' :: y.reverse by simp]
  rw [List.dropWhile_cons, if_neg (by decide)]
  rw [show ('"' : Char) :: y.reverse = (y ++ ['"']).reverse by simp, List.reverse_reverse]

/-- JS trim strips exactly the final newline from text that starts with
a non-whitespace character and whose body ends with a double quote. -/
theorem jsTrimL_concat_newline (y : List Char) (c1 : Char)
    (h1 : (y ++ ['"']).head? = some c1) (hw1 : jsWhitespace c1 = false) :
    jsTrimL ((y ++ ['"']) ++ ['\n']) = y ++ ['"'] := by
  unfold jsTrimL
  rw [dropWhile_head_false _ _ _ (head?_append_of_some _ _ _ h1) hw1]
  rw [show ((y ++ ['"']) ++ ['\n']).reverse = '\n' :: '"' :: y.reverse by simp]
  rw [List.dropWhile_cons, if_pos (by decide)]
  rw [List.dropWhile_cons, if_neg (by decide)]
  rw [show ('"' : Char) :: y.reverse = (y ++ ['"']).reverse by simp, List.reverse_reverse]

theorem handleExportCSV_data (departments : List Department) (users : List User)
    (events : List CalendarEvent) :
    (handleExportCSV departments users events).data
      = csvHeader.data ++ '\n' ::
          ((events.map (fun ev => (encodeRow departments users ev).data ++ ['\n'])).flatten) := by
  have base : ∀ (l : List CalendarEvent) (a : String),
      (l.foldl (fun acc ev => acc ++ encodeRow departments users ev ++ "\n") a).data
        = a.data ++ (l.map (fun ev => (encodeRow departments users ev).data ++ ['\n'])).flatten := by
    intro l
    induction l with
    | nil => intro a; simp
    | cons e t ih =>
      intro a
      rw [List.foldl_cons, ih]
      simp [String.data_append]
  rw [handleExportCSV, base]
  simp [String.data_append]

theorem flatten_eq_joinLines (rows : List (List Char)) (hne : rows ≠ []) :
    (rows.map (fun r => r ++ ['\n'])).flatten = joinLines rows ++ ['\n'] := by
  induction rows with
  | nil => exact absurd rfl hne
  | cons r rs ih =>
    cases rs with
    | nil => simp [joinLines]
    | cons r2 rs2 =>
      rw [List.map_cons, List.flatten_cons, ih (by simp)]
      show (r ++ ['\n']) ++ (joinLines (r2 :: rs2) ++ ['\n'])
        = (r ++ '\n' :: joinLines (r2 :: rs2)) ++ ['\n']
      simp

theorem splitOnChar_ne_nil (sep : Char) (cs : List Char) :
    splitOnChar sep cs ≠ [] := by
  cases cs with
  | nil => simp [splitOnChar]
  | cons c t =>
    rw [splitOnChar]
    cases h : splitOnChar sep t with
    | nil => simp
    | cons f fs =>
      by_cases hc : c = sep <;> simp [hc]

theorem splitOnChar_sep_cons (sep : Char) (b : List Char) :
    splitOnChar sep (sep :: b) = [] :: splitOnChar sep b := by
  rw [splitOnChar]
  cases h : splitOnChar sep b with
  | nil => exact absurd h (splitOnChar_ne_nil sep b)
  | cons f fs => simp

theorem splitOnChar_append_sep (sep : Char) (a b : List Char) (h : sep ∉ a) :
    splitOnChar sep (a ++ sep :: b) = a :: splitOnChar sep b := by
  induction a with
  | nil => simpa using splitOnChar_sep_cons sep b
  | cons c t ih =>
    have hc : c ≠ sep := fun hc => h (hc ▸ List.mem_cons_self c t)
    have ht : sep ∉ t := fun hm => h (List.mem_cons_of_mem c hm)
    rw [List.cons_append, splitOnChar, ih ht]
    simp [hc]

theorem splitOnChar_joinLines (rows : List (List Char)) (hne : rows ≠ [])
    (h : ∀ r ∈ rows, '\n' ∉ r) :
    splitOnChar '\n' (joinLines rows) = rows := by
  induction rows with
  | nil => exact absurd rfl hne
  | cons r rs ih =>
    cases rs with
    | nil => exact splitOnChar_not_mem '\n' r (h r (List.mem_cons_self r []))
    | cons r2 rs2 =>
      show splitOnChar '\n' (r ++ '\n' :: joinLines (r2 :: rs2)) = r :: r2 :: rs2
      rw [splitOnChar_append_sep _ _ _ (h r (List.mem_cons_self r _)),
        ih (by simp) (fun x hx => h x (List.mem_cons_of_mem r hx))]

theorem mk_data (s : String) : String.mk s.data = s := rfl

theorem joinLines_concat (rows : List (List Char)) (hne : rows ≠ [])
    (h : ∀ r ∈ rows, ∃ y, r = y ++ ['"']) :
    ∃ z, joinLines rows = z ++ ['"'] := by
  induction rows with
  | nil => exact absurd rfl hne
  | cons r rs ih =>
    cases rs with
    | nil =>
      obtain ⟨y, hy⟩ := h r (List.mem_cons_self r [])
      exact ⟨y, by rw [show joinLines [r] = r from rfl, hy]⟩
    | cons r2 rs2 =>
      obtain ⟨z, hz⟩ := ih (by simp) (fun x hx => h x (List.mem_cons_of_mem r hx))
      refine ⟨r ++ '\n' :: z, ?_⟩
      show r ++ '\n' :: joinLines (r2 :: rs2) = _
      rw [hz]
      simp

theorem parseCSVLine_encodeRow (departments : List Department) (users : List User)
    (ev : CalendarEvent) (hv : ValidEventForCodec departments users ev) :
    parseCSVLine (encodeRow departments users ev)
      = [ev.title, ev.dateStr, ev.urgency, ev.description.getD "",
         resolveDeptName departments ev.departmentId,
         resolveUserName users ev.assigneeId] := by
  obtain ⟨hurg, hdate, htitle, hdesc, hdept, husr⟩ := hv
  have hscan : ∀ f ∈ (encodedFields departments users ev).map String.data, ScanField f := by
    simp only [encodedFields, List.map_cons, List.map_nil]
    intro f hf
    simp only [List.mem_cons, List.not_mem_nil, or_false] at hf
    rcases hf with rfl | rfl | rfl | rfl | rfl | rfl
    · exact scanField_quoted _
    · exact scanField_plain _ (fun c hc => ⟨(hdate c hc).2.1, (hdate c hc).2.2⟩)
    · exact scanField_plain _
        (fun c hc => ⟨(urgency_chars _ hurg c hc).2.1, (urgency_chars _ hurg c hc).2.2⟩)
    · exact scanField_quoted _
    · exact scanField_quoted _
    · exact scanField_quoted _
  unfold parseCSVLine
  rw [encodeRow_data, csvScan_joinComma _ hscan (by simp [encodedFields])]
  have hd2 : processField ev.dateStr.data = ev.dateStr := by
    rw [processField_no_quote _ (fun hm => (hdate _ hm).2.1 rfl), mk_data]
  have hu2 : processField ev.urgency.data = ev.urgency := by
    rw [processField_no_quote _ (fun hm => (urgency_chars _ hurg _ hm).2.1 rfl), mk_data]
  simp only [encodedFields, List.map_cons, List.map_nil, processField_quoted, hd2, hu2]

theorem find?_dept_id (l : List Department) (hnodup : (l.map Department.id).Nodup)
    (d : Department) (hd : d ∈ l) :
    l.find? (fun x => x.id == d.id) = some d := by
  induction l with
  | nil => cases hd
  | cons b t ih =>
    rw [List.map_cons, List.nodup_cons] at hnodup
    rcases List.mem_cons.mp hd with rfl | hdt
    · simp [List.find?]
    · have hne : (b.id == d.id) = false := by
        simp only [beq_eq_false_iff_ne, ne_eq]
        intro he
        apply hnodup.1
        rw [he]
        exact List.mem_map.mpr ⟨d, hdt, rfl⟩
      simp [List.find?, hne, ih hnodup.2 hdt]

theorem find?_user_id (l : List User) (hnodup : (l.map User.id).Nodup)
    (u : User) (hu : u ∈ l) :
    l.find? (fun x => x.id == u.id) = some u := by
  induction l with
  | nil => cases hu
  | cons b t ih =>
    rw [List.map_cons, List.nodup_cons] at hnodup
    rcases List.mem_cons.mp hu with rfl | hut
    · simp [List.find?]
    · have hne : (b.id == u.id) = false := by
        simp only [beq_eq_false_iff_ne, ne_eq]
        intro he
        apply hnodup.1
        rw [he]
        exact List.mem_map.mpr ⟨u, hut, rfl⟩
      simp [List.find?, hne, ih hnodup.2 hut]

/-- Decoding re-resolves an emitted department name to an identifier;
re-rendering that identifier yields the same name (first-match
resolution plus distinct identifiers). -/
theorem resolveDeptName_reencode (l : List Department)
    (hnodup : (l.map Department.id).Nodup) (deptId : Option String) :
    resolveDeptName l
      ((l.find? (fun dd => dd.name == resolveDeptName l deptId)).map (fun dd => dd.id))
      = resolveDeptName l deptId := by
  cases hfind : l.find? (fun dd => dd.name == resolveDeptName l deptId) with
  | none =>
    show resolveDeptName l none = resolveDeptName l deptId
    cases deptId with
    | none => rfl
    | some i =>
      cases hf2 : l.find? (fun dd => dd.id == i) with
      | none => simp [resolveDeptName, hf2]
      | some d0 =>
        exfalso
        have hd0 : d0 ∈ l := List.mem_of_find?_eq_some hf2
        have hp : (fun dd => dd.name == resolveDeptName l (some i)) d0 = true := by
          simp [resolveDeptName, hf2]
        exact List.find?_eq_none.mp hfind d0 hd0 hp
  | some d' =>
    have hd' : d' ∈ l := List.mem_of_find?_eq_some hfind
    have hname := List.find?_some hfind
    show resolveDeptName l (some d'.id) = resolveDeptName l deptId
    rw [show resolveDeptName l (some d'.id) = d'.name by
      simp [resolveDeptName, find?_dept_id l hnodup d' hd']]
    exact eq_of_beq hname

/-- The user-side counterpart of `resolveDeptName_reencode`. -/
theorem resolveUserName_reencode (l : List User)
    (hnodup : (l.map User.id).Nodup) (assigneeId : Option String) :
    resolveUserName l
      ((l.find? (fun uu => uu.name == resolveUserName l assigneeId)).map (fun uu => uu.id))
      = resolveUserName l assigneeId := by
  cases hfind : l.find? (fun uu => uu.name == resolveUserName l assigneeId) with
  | none =>
    show resolveUserName l none = resolveUserName l assigneeId
    cases assigneeId with
    | none => rfl
    | some i =>
      cases hf2 : l.find? (fun uu => uu.id == i) with
      | none => simp [resolveUserName, hf2]
      | some u0 =>
        exfalso
        have hu0 : u0 ∈ l := List.mem_of_find?_eq_some hf2
        have hp : (fun uu => uu.name == resolveUserName l (some i)) u0 = true := by
          simp [resolveUserName, hf2]
        exact List.find?_eq_none.mp hfind u0 hu0 hp
  | some u' =>
    have hu' : u' ∈ l := List.mem_of_find?_eq_some hfind
    have hname := List.find?_some hfind
    show resolveUserName l (some u'.id) = resolveUserName l assigneeId
    rw [show resolveUserName l (some u'.id) = u'.name by
      simp [resolveUserName, find?_user_id l hnodup u' hu']]
    exact eq_of_beq hname

theorem importRow_encodeRow (departments : List Department) (users : List User)
    (ev : CalendarEvent)
    (hdep : (departments.map Department.id).Nodup)
    (husr : (users.map User.id).Nodup)
    (hv : ValidEventForCodec departments users ev) :
    ∃ rec, importRow departments users (encodeRow departments users ev) = some rec
      ∧ eventView departments users rec = eventView departments users ev := by
  have htrim : jsTrim (encodeRow departments users ev) = encodeRow departments users ev := by
    obtain ⟨y, hy⟩ := encodeRow_concat departments users ev
    have hh : (y ++ ['"']).head? = some '"' := by
      rw [← hy]; exact encodeRow_head? departments users ev
    unfold jsTrim
    rw [hy, jsTrimL_id_concat y '"' hh (by decide), ← hy, mk_data]
  have hne0 : jsTrim (encodeRow departments users ev) ≠ "" := by
    rw [htrim]
    intro hcon
    have hh := encodeRow_head? departments users ev
    rw [hcon] at hh
    cases hh
  have hcols : parseCSVLine (jsTrim (encodeRow departments users ev))
      = [ev.title, ev.dateStr, ev.urgency, ev.description.getD "",
         resolveDeptName departments ev.departmentId,
         resolveUserName users ev.assigneeId] := by
    rw [htrim]
    exact parseCSVLine_encodeRow departments users ev hv
  have hlen : 3 ≤ (parseCSVLine (jsTrim (encodeRow departments users ev))).length := by
    rw [hcols]; simp
  refine ⟨decodedRecord departments users (jsTrim (encodeRow departments users ev)),
    importRow_eq_some _ _ _ hne0 hlen, ?_⟩
  unfold eventView decodedRecord
  rw [hcols]
  simp [coerceUrgency, hv.1,
    resolveDeptName_reencode departments hdep ev.departmentId,
    resolveUserName_reencode users husr ev.assigneeId]

theorem filterMap_importRow_rows (departments : List Department) (users : List User)
    (events : List CalendarEvent)
    (hdep : (departments.map Department.id).Nodup)
    (husr : (users.map User.id).Nodup)
    (hval : ∀ ev ∈ events, ValidEventForCodec departments users ev) :
    ((events.map (fun ev => encodeRow departments users ev)).filterMap
        (importRow departments users)).map (eventView departments users)
      = events.map (eventView departments users) := by
  induction events with
  | nil => rfl
  | cons e t ih =>
    obtain ⟨rec, hrec, hview⟩ :=
      importRow_encodeRow departments users e hdep husr (hval e (List.mem_cons_self e t))
    rw [List.map_cons, List.filterMap_cons, hrec]
    rw [List.map_cons, hview, List.map_cons,
      ih (fun x hx => hval x (List.mem_cons_of_mem e hx))]

/-- C1 amended: the round-trip law holds for every non-empty sequence of
codec-valid records (known urgency, calendar-shaped date text, and no
line break in the title, description, or resolved names) over
departments and users with pairwise-distinct identifiers: decoding the
export yields exactly one record per event, equal to the original in
title, date, urgency and resolved department/assignee names. -/
theorem c1_roundtrip_amended (departments : List Department) (users : List User)
    (events : List CalendarEvent)
    (hdep : (departments.map Department.id).Nodup)
    (husr : (users.map User.id).Nodup)
    (hne : events ≠ [])
    (hval : ∀ ev ∈ events, ValidEventForCodec departments users ev) :
    RoundTripViews departments users events := by
  have hrowsne : events.map (fun ev => (encodeRow departments users ev).data) ≠ [] := by
    simpa using hne
  have hconcat : ∀ r ∈ events.map (fun ev => (encodeRow departments users ev).data),
      ∃ y, r = y ++ ['"'] := by
    intro r hr
    rcases List.mem_map.mp hr with ⟨ev, _, rfl⟩
    exact encodeRow_concat departments users ev
  obtain ⟨z, hz⟩ := joinLines_concat _ hrowsne hconcat
  have hdata : (handleExportCSV departments users events).data
      = ((csvHeader.data ++ '\n' :: z) ++ ['"']) ++ ['\n'] := by
    rw [handleExportCSV_data]
    have hmm : events.map (fun ev => (encodeRow departments users ev).data ++ ['\n'])
        = (events.map (fun ev => (encodeRow departments users ev).data)).map
            (fun r => r ++ ['\n']) := by
      rw [List.map_map]
      rfl
    rw [hmm, flatten_eq_joinLines _ hrowsne, hz]
    simp
  have hhead : ((csvHeader.data ++ '\n' :: z) ++ ['"']).head? = some 'T' :=
    head?_append_of_some _ _ _ (head?_append_of_some _ _ _ (by decide))
  have htrim : jsTrim (handleExportCSV departments users events)
      = String.mk ((csvHeader.data ++ '\n' :: z) ++ ['"']) := by
    unfold jsTrim
    rw [hdata, jsTrimL_concat_newline _ 'T' hhead (by decide)]
  have hne2 : jsTrim (handleExportCSV departments users events) ≠ "" := by
    rw [htrim]
    intro hcon
    have hd := congrArg String.data hcon
    simp at hd
  have hsplit : splitOnChar '\n' (jsTrim (handleExportCSV departments users events)).data
      = csvHeader.data :: events.map (fun ev => (encodeRow departments users ev).data) := by
    rw [htrim]
    show splitOnChar '\n' ((csvHeader.data ++ '\n' :: z) ++ ['"'])
      = csvHeader.data :: events.map (fun ev => (encodeRow departments users ev).data)
    rw [show (csvHeader.data ++ '\n' :: z) ++ ['"']
        = csvHeader.data ++ '\n' :: (z ++ ['"']) by simp]
    rw [← hz]
    rw [splitOnChar_append_sep _ _ _ (by decide)]
    rw [splitOnChar_joinLines _ hrowsne]
    intro r hr
    rcases List.mem_map.mp hr with ⟨ev, hev, rfl⟩
    exact encodeRow_no_newline departments users ev (hval ev hev)
  have hok : handleImportCSV departments users (handleExportCSV departments users events)
      = Except.ok (((events.map (fun ev => encodeRow departments users ev)).filterMap
          (importRow departments users))) := by
    unfold handleImportCSV
    rw [if_neg hne2, hsplit]
    have hlenpos : 0 < events.length := List.length_pos.mpr hne
    rw [if_neg (by simp; omega)]
    congr 1
    rw [List.drop_one, List.map_cons, List.tail_cons, List.map_map]
    rfl
  unfold RoundTripViews importViews
  rw [hok]
  show some (((events.map (fun ev => encodeRow departments users ev)).filterMap
      (importRow departments users)).map (eventView departments users))
    = some (events.map (eventView departments users))
  rw [filterMap_importRow_rows departments users events hdep husr hval]

/-- Witness for the amended C1, exercising the spec's quoting example
(title with comma and embedded quotes) and live references. -/
theorem c1_roundtrip_amended_witness :
    RoundTripViews [{ id := "d1", name := "Pazarlama" }]
      [{ id := "u1", name := "Ali Veli", email := "a@b.c", emoji := "🙂", avatarUrl := "" }]
      [{ title := "Yaz, \"Büyük\" Kampanya", dateStr := "2024-06-01", urgency := "High",
         description := some "Açıklama", departmentId := some "d1",
         assigneeId := some "u1" }] :=
  c1_roundtrip_amended
    [{ id := "d1", name := "Pazarlama" }]
    [{ id := "u1", name := "Ali Veli", email := "a@b.c", emoji := "🙂", avatarUrl := "" }]
    [{ title := "Yaz, \"Büyük\" Kampanya", dateStr := "2024-06-01", urgency := "High",
       description := some "Açıklama", departmentId := some "d1",
       assigneeId := some "u1" }]
    (by decide) (by decide) (by decide) (by decide)

end KampanyaTakvim
